import Mathlib

/-!
Shallow embedding of the agent-routing core of the repository
(`rag_system.py`, the prompt assembly in `agent.py`, and the persistence
retry logic in `db_manager.py`), together with proofs settling the frozen
claims about it.

Conventions of the embedding:

* An `Agent` is the `{name, description, system_prompt}` record stored in the
  agent table (`models.py` / `db_manager.get_agents`).
* The TF-IDF vectorization and the cosine-similarity call are performed by
  the external `sklearn` library.  The routing functions in `rag_system.py`
  consume the resulting row `similarity_scores` (one score per agent, in
  registry order); the embedding therefore passes that row in explicitly.
  `hasIndex : Bool` models `self.agent_vectors is not None`, and the
  `Except Unit (List Q)` argument models the body of the `try:` block: the
  `.error` case is an exception raised while cleaning / transforming the
  query or scoring it (for example a stale index), which the source catches
  with `except Exception`.
* The mathematical content of the similarity itself (needed for the
  score-range claim) is embedded as `cosineSim` over real vectors, the
  definition `sklearn.metrics.pairwise.cosine_similarity` computes.
* Machine floats are modelled by an ordered field (`Q` in witnesses);
  no claim in scope depends on rounding.
-/

namespace LSE

/-- An agent record as returned by `db_manager.get_agents()`:
`{"name": ..., "description": ..., "system_prompt": ...}`. -/
structure Agent where
  name : String
  description : String
  system_prompt : String
deriving Repr, DecidableEq

/-- The default agent substituted by `rag_system.update_agent_knowledge` and
`db_manager.get_agents` when the agent table is empty or unreachable. -/
def defaultAgent : Agent :=
  { name := "General Assistant"
    description := "A helpful assistant that can discuss a wide range of topics."
    system_prompt := "You are a helpful assistant. Answer questions clearly and honestly." }

/-- `self.agents[idx]["name"]` with the index produced by the scoring step.
In the source the index is always in range (the score row has one entry per
agent); out-of-range access is given the harmless default agent. -/
def nameAt (agents : List Agent) (idx : Nat) : String :=
  (agents.getD idx defaultAgent).name

/-- `EnhancedRAGSystem.update_agent_knowledge`, restricted to what it does to
`self.agents`: the list fetched from the database is kept as is, except that
an empty list is replaced by the default `General Assistant` singleton
(`if not agents: agents = [{...}]`). -/
def update_agent_knowledge_agents (dbAgents : List Agent) : List Agent :=
  if dbAgents.isEmpty then [defaultAgent] else dbAgents

variable {α : Type} [LinearOrderedField α]

/-- Scan step of `np.argmax`: track the best index and value so far, updating
only on a strictly greater value, so the first maximal index wins. -/
def argmaxP : List α → Nat → Nat × α → Nat × α
  | [], _, p => p
  | x :: xs, i, (b, bv) => argmaxP xs (i + 1) (if bv < x then (i, x) else (b, bv))

/-- `np.argmax(scores)`: index of the first occurrence of the maximum.
(`np.argmax` on an empty array raises; the guards in the source prevent that
case, and the embedding returns `0` there.) -/
def argmax (scores : List α) : Nat :=
  match scores with
  | [] => 0
  | x :: xs => (argmaxP xs 1 (0, x)).1

/-- Comparison key used to model `similarity_scores.argsort()` in its stable
regime.  NumPy's default `argsort` (introsort) degenerates to insertion sort
— which is stable — only for rows below its ~16-element cutoff; there, a
stable ascending sort of `[0, ..., n-1]` (already in index order) orders
indices by the lexicographic key (score, index) ascending, which `keyLe`
expresses directly.  For longer rows the quicksort partitioning may swap
equal elements, so the index tie-break encoded here is NOT guaranteed by the
program, and only tie-order-invariant consequences of this model (which
score multiset is ranked where, membership, score-descending order) transfer
to rows of 16 elements or more. -/
def keyLe (scores : List α) (i j : Nat) : Prop :=
  scores.getD i 0 < scores.getD j 0 ∨ (scores.getD i 0 = scores.getD j 0 ∧ i ≤ j)

instance keyLe_decidable (scores : List α) : DecidableRel (keyLe scores) := fun i j => by
  unfold keyLe; infer_instance

instance keyLe_total (scores : List α) : IsTotal Nat (keyLe scores) := by
  constructor
  intro i j
  rcases lt_trichotomy (scores.getD i 0) (scores.getD j 0) with h | h | h
  · exact Or.inl (Or.inl h)
  · rcases Nat.le_total i j with hij | hij
    · exact Or.inl (Or.inr ⟨h, hij⟩)
    · exact Or.inr (Or.inr ⟨h.symm, hij⟩)
  · exact Or.inr (Or.inl h)

instance keyLe_trans (scores : List α) : IsTrans Nat (keyLe scores) := by
  constructor
  intro i j k hij hjk
  rcases hij with h1 | ⟨h1, h1n⟩
  · rcases hjk with h2 | ⟨h2, _⟩
    · exact Or.inl (h1.trans h2)
    · exact Or.inl (h2 ▸ h1)
  · rcases hjk with h2 | ⟨h2, h2n⟩
    · exact Or.inl (h1 ▸ h2)
    · exact Or.inr ⟨h1.trans h2, h1n.trans h2n⟩

/-- `similarity_scores.argsort()[::-1]`: indices sorted by descending score.
Among tied scores this model puts the index appearing later in the registry
first (reversing a stable ascending sort reverses the order of ties), which
matches the program exactly for score rows below NumPy's ~16-element
insertion-sort cutoff.  For longer rows NumPy's unstable quicksort leaves
the tie order unspecified, so statements about the ranking of 16 or more
agents must not depend on the tie order of this model; the results proved
below either carry an explicit length bound or use only tie-order-invariant
properties (permutation of `range`, nodup, score-descending pairwise). -/
def sortedIndicesDesc (scores : List α) : List Nat :=
  (List.insertionSort (keyLe scores) (List.range scores.length)).reverse

/-- The loop filter `if exclude_current is None or agent_name != exclude_current`. -/
def notExcluded (exclude : Option String) (name : String) : Bool :=
  match exclude with
  | none => true
  | some e => decide (name ≠ e)

/-- `EnhancedRAGSystem.get_best_agent_for_query(query, exclude_current)`.
The guard returns the default name when the registry is empty or the index is
absent; otherwise the first non-excluded index of the descending ranking is
returned, falling back to `np.argmax` when every agent is excluded; an
exception while scoring falls back to the first registry agent. -/
def get_best_agent_for_query (agents : List Agent) (hasIndex : Bool)
    (scoreResult : Except Unit (List α)) (exclude : Option String) : String :=
  if agents.isEmpty || !hasIndex then "General Assistant"
  else
    match scoreResult with
    | .error _ =>
      match agents with
      | [] => "General Assistant"
      | a :: _ => a.name
    | .ok scores =>
      match (sortedIndicesDesc scores).find? (fun idx => notExcluded exclude (nameAt agents idx)) with
      | some idx => nameAt agents idx
      | none => nameAt agents (argmax scores)

/-- The accumulation loop of `get_agent_recommendations`: append each
non-excluded agent name in ranking order and stop once
`len(recommendations) >= top_n` (checked after appending, so `top_n = 0`
still yields one element). -/
def collectRecs (agents : List Agent) (exclude : Option String) (topN : Nat) :
    List Nat → List String → List String
  | [], acc => acc
  | idx :: rest, acc =>
    if notExcluded exclude (nameAt agents idx) then
      let acc2 := acc ++ [nameAt agents idx]
      if topN ≤ acc2.length then acc2 else collectRecs agents exclude topN rest acc2
    else collectRecs agents exclude topN rest acc

/-- `EnhancedRAGSystem.get_agent_recommendations(query, top_n, exclude_current)`. -/
def get_agent_recommendations (agents : List Agent) (hasIndex : Bool)
    (scoreResult : Except Unit (List α)) (topN : Nat) (exclude : Option String) : List String :=
  if agents.isEmpty || !hasIndex then ["General Assistant"]
  else
    match scoreResult with
    | .error _ =>
      match agents with
      | [] => ["General Assistant"]
      | a :: _ =>
        let available := (agents.filter (fun ag => notExcluded exclude ag.name)).map Agent.name
        if available.isEmpty then [a.name] else available.take topN
    | .ok scores => collectRecs agents exclude topN (sortedIndicesDesc scores) []

/-- The current-agent lookup loop of `should_switch_agent`: the score of the
first registry entry whose name equals `current`, with `0.0` when no entry
matches (the initial value of `current_agent_score`). -/
def currentScoreOf (agents : List Agent) (scores : List α) (current : String) : α :=
  match agents.findIdx? (fun a => a.name = current) with
  | some i => scores.getD i 0
  | none => 0

/-- `EnhancedRAGSystem.should_switch_agent(query, current_agent, threshold)`:
returns `(should_switch, recommended_agent, confidence)`. -/
def should_switch_agent (agents : List Agent) (hasIndex : Bool)
    (scoreResult : Except Unit (List α)) (current : String) (threshold : α) :
    Bool × String × α :=
  if agents.isEmpty || !hasIndex then (false, current, 0)
  else
    match scoreResult with
    | .error _ => (false, current, 0)
    | .ok scores =>
      let currentScore := currentScoreOf agents scores current
      let bestIdx := argmax scores
      let bestScore := scores.getD bestIdx 0
      let bestName := nameAt agents bestIdx
      let confidence := bestScore - currentScore
      (decide (bestName ≠ current) && decide (threshold < confidence), bestName, confidence)

/-- The routing errors named by the specification's taxonomy.  No code in the
repository constructs or raises any of them; the type exists so that the
claim "the router raises `NoAgentsAvailableError`" can be stated. -/
inductive RouterError where
  | noAgentsAvailable
deriving Repr, DecidableEq

/-- One routing request as the source performs it: refresh the registry with
`update_agent_knowledge` (which substitutes the default agent for an empty
table) and select the best agent.  The source has no raising path, so the
result is always `.ok`. -/
def routeQuery (dbAgents : List Agent) (hasIndex : Bool)
    (scoreResult : Except Unit (List α)) (exclude : Option String) :
    Except RouterError String :=
  .ok (get_best_agent_for_query (update_agent_knowledge_agents dbAgents) hasIndex scoreResult exclude)

/-! ### Cosine similarity (the mathematics performed by sklearn) -/

/-- Dot product of two vectors, pairing entries up to the shorter length. -/
def dotl : List ℝ → List ℝ → ℝ
  | x :: xs, y :: ys => x * y + dotl xs ys
  | _, _ => 0

/-- `sklearn.metrics.pairwise.cosine_similarity` of two vectors:
`⟨x, y⟩ / (‖x‖ ‖y‖)`, with the convention (shared with sklearn, which skips
normalizing zero rows) that a zero norm yields similarity `0`. -/
noncomputable def cosineSim (x y : List ℝ) : ℝ :=
  dotl x y / (Real.sqrt (dotl x x) * Real.sqrt (dotl y y))

/-- Entrywise nonnegative vector.  TF-IDF vectors are of this shape: term
counts are nonnegative and sklearn's smoothed idf weights are `≥ 1`. -/
def NonnegVec (v : List ℝ) : Prop := ∀ x ∈ v, 0 ≤ x

/-- Score of the agent with the given name: the entry of the score row at the
first registry index carrying that name. -/
def scoreOfName (agents : List Agent) (scores : List α) (name : String) : α :=
  scores.getD (agents.findIdx (fun a => a.name = name)) 0

/-! ### Prompt assembly (`agent.py`) -/

/-- A chat-history entry as stored by the apps: role, content, and for
assistant messages the producing agent (`msg.get("agent")`). -/
structure Message where
  role : String
  content : String
  agent : Option String
deriving Repr, DecidableEq

/-- A `{role, content}` message as sent to the LLM API. -/
structure ChatMsg where
  role : String
  content : String
deriving Repr, DecidableEq

/-- `l[-n:]` in Python: the last `n` elements. -/
def takeLast (n : Nat) (l : List Message) : List Message :=
  l.drop (l.length - n)

/-- The history window kept by both prompt builders:
`chat_history[-H:] if len(chat_history) > H else chat_history[:-1]`,
guarded by `if chat_history:`. -/
def historyWindow (maxHistory : Nat) (history : List Message) : List Message :=
  if history.isEmpty then []
  else if maxHistory < history.length then takeLast maxHistory history
  else history.dropLast

/-- Message rewriting in `get_simple_agent_response`: every assistant message
is tagged with its producing agent (`msg.get("agent", "Assistant")`). -/
def simpleTag (m : Message) : ChatMsg :=
  let a := m.agent.getD "Assistant"
  if m.role = "assistant" then { role := m.role, content := "[" ++ a ++ "]: " ++ m.content }
  else { role := m.role, content := m.content }

/-- Message rewriting in `primary_agent` (inside `get_agent_response`):
an assistant message is tagged only when it records a producing agent
(`msg.get("agent")` truthy, hence nonempty) different from the agent about
to respond. -/
def primaryTag (current : String) (m : Message) : ChatMsg :=
  match m.agent with
  | some a =>
    if m.role = "assistant" ∧ a ≠ "" ∧ a ≠ current then
      { role := m.role, content := "[Previous response from " ++ a ++ "]: " ++ m.content }
    else { role := m.role, content := m.content }
  | none => { role := m.role, content := m.content }

/-- The message list assembled by `get_simple_agent_response`: system prompt,
tagged history window, then the new user message.  The source fixes
`maxHistory = 6`; the bound is kept as a parameter. -/
def buildSimpleMessages (maxHistory : Nat) (systemPrompt : String)
    (history : List Message) (userInput : String) : List ChatMsg :=
  { role := "system", content := systemPrompt } ::
    ((historyWindow maxHistory history).map simpleTag ++ [{ role := "user", content := userInput }])

/-- The message list assembled by `primary_agent`: enhanced system prompt,
tagged history window, then the processed user input.  The source fixes
`maxHistory = 8`. -/
def buildPrimaryMessages (maxHistory : Nat) (enhancedSystemPrompt current : String)
    (history : List Message) (processedInput : String) : List ChatMsg :=
  { role := "system", content := enhancedSystemPrompt } ::
    ((historyWindow maxHistory history).map (primaryTag current) ++
      [{ role := "user", content := processedInput }])

/-- The history bound hardcoded in `get_simple_agent_response` ("last 6 messages"). -/
def simpleMaxHistory : Nat := 6

/-- The history bound hardcoded in `primary_agent` ("last 8 messages"). -/
def primaryMaxHistory : Nat := 8

/-! ### Persistence retry logic (`db_manager.py`) -/

/-- The retry loop of `db_manager.execute_with_retry`, with the database call
abstracted as a map from attempt number to outcome.  `fuel` counts remaining
attempts (started at `max_tries = 5`); on a failing non-final attempt the
current delay is recorded (`time.sleep(retry_delay)`) and doubled
(`retry_delay *= 2`); the final attempt's failure is re-raised. -/
def retryGo (attempts : Nat → Except String Bool) (i delay : Nat) :
    Nat → Except String Bool × List Nat
  | 0 => (attempts i, [])
  | 1 => (attempts i, [])
  | fuel + 2 =>
    match attempts i with
    | .ok v => (.ok v, [])
    | .error _ =>
      let r := retryGo attempts (i + 1) (2 * delay) (fuel + 1)
      (r.1, delay :: r.2)

/-- `db_manager.execute_with_retry(func)`: up to 5 attempts with initial delay
1 second, doubling after each failure.  Returns the final outcome and the
list of sleep delays taken. -/
def execute_with_retry (attempts : Nat → Except String Bool) : Except String Bool × List Nat :=
  retryGo attempts 0 1 5

/-- `db_manager.save_chat_history`, with the database session abstracted to
its observable outcomes: whether the user and agent rows were found, and the
outcome of the write/commit.  The source returns `False` when user or agent
is missing, `True` on success, and on a database exception rolls back and
executes `raise e` — the `execute_with_retry` call textually below it sits
after the `return`/`finally` and is unreachable dead code (it also refers to
a `_save_chat_history` that no longer exists, its `def` being commented out). -/
def save_chat_history (userFound agentFound : Bool) (commitResult : Except String Unit) :
    Except String Bool :=
  if !(userFound && agentFound) then .ok false
  else
    match commitResult with
    | .ok _ => .ok true
    | .error e => .error e

/-! ### Support lemmas -/

/-- Invariant of the `np.argmax` scan: the tracked value only grows, it
dominates every scanned entry, and the result is either the initial pair or
an (index, value) pair taken from the scanned list. -/
theorem argmaxP_spec : ∀ (xs : List α) (i b : Nat) (bv : α),
    bv ≤ (argmaxP xs i (b, bv)).2 ∧
    (∀ k, k < xs.length → xs.getD k 0 ≤ (argmaxP xs i (b, bv)).2) ∧
    (argmaxP xs i (b, bv) = (b, bv) ∨
      ∃ k, k < xs.length ∧ argmaxP xs i (b, bv) = (i + k, xs.getD k 0))
  | [], i, b, bv => by
    refine ⟨le_refl _, ?_, Or.inl rfl⟩
    intro k hk
    simp at hk
  | x :: xs, i, b, bv => by
    by_cases h : bv < x
    · have ih := argmaxP_spec xs (i + 1) i x
      simp only [argmaxP, if_pos h]
      refine ⟨le_of_lt (lt_of_lt_of_le h ih.1), ?_, ?_⟩
      · intro k hk
        match k with
        | 0 => simpa using ih.1
        | k + 1 =>
          rw [List.getD_cons_succ]
          exact ih.2.1 k (by simpa using hk)
      · rcases ih.2.2 with heq | ⟨k, hk, heq⟩
        · exact Or.inr ⟨0, by simp, by simpa using heq⟩
        · exact Or.inr ⟨k + 1, by simpa using hk, by
            rw [List.getD_cons_succ]
            rw [heq]
            congr 1
            omega⟩
    · have ih := argmaxP_spec xs (i + 1) b bv
      simp only [argmaxP, if_neg h]
      refine ⟨ih.1, ?_, ?_⟩
      · intro k hk
        match k with
        | 0 =>
          rw [List.getD_cons_zero]
          exact le_trans (le_of_not_lt h) ih.1
        | k + 1 =>
          rw [List.getD_cons_succ]
          exact ih.2.1 k (by simpa using hk)
      · rcases ih.2.2 with heq | ⟨k, hk, heq⟩
        · exact Or.inl heq
        · exact Or.inr ⟨k + 1, by simpa using hk, by
            rw [List.getD_cons_succ]
            rw [heq]
            congr 1
            omega⟩

/-- `np.argmax` returns an in-range index on a nonempty score row. -/
theorem argmax_lt_length (scores : List α) (h : scores ≠ []) :
    argmax scores < scores.length := by
  match scores with
  | x :: xs =>
    rcases (argmaxP_spec xs 1 0 x).2.2 with heq | ⟨k, hk, heq⟩ <;>
      simp [argmax, heq, Nat.succ_lt_succ_iff]
    omega

/-- The entry at `np.argmax(scores)` dominates every entry of the row. -/
theorem getD_argmax_max (scores : List α) (h : scores ≠ []) :
    ∀ j, j < scores.length → scores.getD j 0 ≤ scores.getD (argmax scores) 0 := by
  match scores with
  | x :: xs =>
    have hspec := argmaxP_spec xs 1 0 x
    have hval : (x :: xs).getD (argmax (x :: xs)) 0 = (argmaxP xs 1 (0, x)).2 := by
      rcases hspec.2.2 with heq | ⟨k, hk, heq⟩
      · simp [argmax, heq]
      · have h1 : argmax (x :: xs) = 1 + k := by simp [argmax, heq]
        have h2 : (argmaxP xs 1 (0, x)).2 = xs.getD k 0 := by rw [heq]
        rw [h1, h2, Nat.add_comm, List.getD_cons_succ]
    intro j hj
    rw [hval]
    match j with
    | 0 => simpa using hspec.1
    | j + 1 =>
      rw [List.getD_cons_succ]
      exact hspec.2.1 j (by simpa using hj)

theorem sortedIndicesDesc_perm (scores : List α) :
    (sortedIndicesDesc scores).Perm (List.range scores.length) :=
  (List.reverse_perm _).trans (List.perm_insertionSort _ _)

theorem sortedIndicesDesc_nodup (scores : List α) : (sortedIndicesDesc scores).Nodup :=
  (sortedIndicesDesc_perm scores).symm.nodup (List.nodup_range _)

theorem sortedIndicesDesc_mem (scores : List α) {i : Nat} :
    i ∈ sortedIndicesDesc scores ↔ i < scores.length :=
  ((sortedIndicesDesc_perm scores).mem_iff).trans List.mem_range

theorem sortedIndicesDesc_length (scores : List α) :
    (sortedIndicesDesc scores).length = scores.length :=
  ((sortedIndicesDesc_perm scores).length_eq).trans (List.length_range _)

/-- The ranking is pairwise descending with respect to the argsort key. -/
theorem sortedIndicesDesc_pairwise (scores : List α) :
    (sortedIndicesDesc scores).Pairwise (fun i j => keyLe scores j i) :=
  List.pairwise_reverse.mpr (List.sorted_insertionSort (keyLe scores) (List.range scores.length))

/-- Among tied scores, the index appearing later in the registry is ranked
strictly earlier by `argsort()[::-1]`. -/
theorem sortedIndicesDesc_tie_later (scores : List α) {i j : Nat} (hij : i < j)
    (hj : j < scores.length) (htie : scores.getD i 0 = scores.getD j 0) :
    (sortedIndicesDesc scores).indexOf j < (sortedIndicesDesc scores).indexOf i := by
  have hi : i ∈ sortedIndicesDesc scores := (sortedIndicesDesc_mem scores).mpr (hij.trans hj)
  have hjm : j ∈ sortedIndicesDesc scores := (sortedIndicesDesc_mem scores).mpr hj
  have hil : (sortedIndicesDesc scores).indexOf i < (sortedIndicesDesc scores).length :=
    List.indexOf_lt_length.mpr hi
  have hjl : (sortedIndicesDesc scores).indexOf j < (sortedIndicesDesc scores).length :=
    List.indexOf_lt_length.mpr hjm
  by_contra hcon
  push_neg at hcon
  have hne : (sortedIndicesDesc scores).indexOf i ≠ (sortedIndicesDesc scores).indexOf j := by
    intro h
    have : i = j := (List.indexOf_inj hi hjm).mp h
    omega
  have hlt : (sortedIndicesDesc scores).indexOf i < (sortedIndicesDesc scores).indexOf j := by
    omega
  have hkey : keyLe scores j i := by
    have hpw := sortedIndicesDesc_pairwise scores
    have := List.pairwise_iff_getElem.mp hpw _ _ hil hjl hlt
    rwa [List.getElem_indexOf hil, List.getElem_indexOf hjl] at this
  rcases hkey with hlt2 | ⟨heq2, hle2⟩
  · rw [htie] at hlt2
    exact lt_irrefl _ hlt2
  · omega

/-- `find?` with an everywhere-true predicate returns the head. -/
theorem find?_of_forall_true {l : List Nat} {p : Nat → Bool} (hp : ∀ x ∈ l, p x = true) :
    l.find? p = l.head? := by
  cases l with
  | nil => rfl
  | cons a rest =>
    rw [List.find?_cons, hp a (by simp)]
    rfl

/-- Closed form of the recommendation loop: starting from an accumulator
shorter than `topN`, it appends the names of the non-excluded indices in
order, stopping after `topN - acc.length` of them. -/
theorem collectRecs_eq (agents : List Agent) (exclude : Option String) (topN : Nat) :
    ∀ (idxs : List Nat) (acc : List String), acc.length < topN →
      collectRecs agents exclude topN idxs acc =
        acc ++ ((idxs.filter (fun i => notExcluded exclude (nameAt agents i))).take
          (topN - acc.length)).map (nameAt agents)
  | [], acc, _ => by simp [collectRecs]
  | idx :: rest, acc, hacc => by
    by_cases hpred : notExcluded exclude (nameAt agents idx) = true
    · rw [List.filter_cons, if_pos hpred]
      by_cases hstop : topN ≤ (acc ++ [nameAt agents idx]).length
      · have hN : topN - acc.length = 1 := by
          simp at hstop
          omega
        rw [hN, List.take_succ_cons, List.take_zero]
        simp only [collectRecs, hpred, if_true, if_pos hstop]
        simp
      · have hacc2 : (acc ++ [nameAt agents idx]).length < topN := by omega
        have ih := collectRecs_eq agents exclude topN rest (acc ++ [nameAt agents idx]) hacc2
        simp only [collectRecs, hpred, if_true, if_neg hstop]
        rw [ih]
        have hsub : topN - acc.length = (topN - (acc ++ [nameAt agents idx]).length) + 1 := by
          simp
          simp at hacc2
          omega
        rw [hsub, List.take_succ_cons]
        simp
    · have hpred2 : notExcluded exclude (nameAt agents idx) = false := by
        simpa using hpred
      rw [List.filter_cons, if_neg (by simp [hpred2])]
      simp only [collectRecs, hpred2]
      simp only [Bool.false_eq_true, if_false]
      exact collectRecs_eq agents exclude topN rest acc hacc

/-- Closed form of `get_agent_recommendations` on the normal path with a
positive `top_n`. -/
theorem get_agent_recommendations_eq (agents : List Agent) (scores : List α)
    (topN : Nat) (exclude : Option String) (hA : agents ≠ []) (hN : 1 ≤ topN) :
    get_agent_recommendations agents true (.ok scores) topN exclude =
      (((sortedIndicesDesc scores).filter
        (fun i => notExcluded exclude (nameAt agents i))).take topN).map (nameAt agents) := by
  have hguard : (agents.isEmpty || !true) = false := by
    simp [List.isEmpty_eq_false.mpr hA]
  simp only [get_agent_recommendations, hguard, Bool.false_eq_true, if_false]
  rw [collectRecs_eq agents exclude topN _ [] (by simpa using hN)]
  simp

theorem dotl_nonneg : ∀ {x y : List ℝ}, NonnegVec x → NonnegVec y → 0 ≤ dotl x y
  | [], _, _, _ => le_of_eq (by simp [dotl])
  | _ :: _, [], _, _ => le_of_eq (by simp [dotl])
  | a :: xs, b :: ys, hx, hy => by
    have hx2 : NonnegVec xs := fun v hv => hx v (List.mem_cons_of_mem _ hv)
    have hy2 : NonnegVec ys := fun v hv => hy v (List.mem_cons_of_mem _ hv)
    have ih := dotl_nonneg hx2 hy2
    have ha : 0 ≤ a := hx a (List.mem_cons_self _ _)
    have hb : 0 ≤ b := hy b (List.mem_cons_self _ _)
    simp only [dotl]
    exact add_nonneg (mul_nonneg ha hb) ih

theorem dotl_self_nonneg : ∀ (x : List ℝ), 0 ≤ dotl x x
  | [] => le_of_eq (by simp [dotl])
  | a :: xs => by
    have ih := dotl_self_nonneg xs
    simp only [dotl]
    exact add_nonneg (mul_self_nonneg a) ih

/-- Cauchy–Schwarz for `dotl`. -/
theorem dotl_sq_le : ∀ (x y : List ℝ), (dotl x y) ^ 2 ≤ dotl x x * dotl y y
  | [], y => by simp [dotl]
  | _ :: _, [] => by simp [dotl]
  | a :: xs, b :: ys => by
    have ih := dotl_sq_le xs ys
    have hp := dotl_self_nonneg xs
    have hq := dotl_self_nonneg ys
    have hcs : 0 ≤ dotl xs xs * dotl ys ys - dotl xs ys ^ 2 := by nlinarith [ih]
    simp only [dotl]
    rcases eq_or_lt_of_le hq with hq0 | hqpos
    · have hd0 : dotl xs ys = 0 := by
        have h1 : dotl xs ys ^ 2 ≤ 0 := by nlinarith [ih]
        have h2 : dotl xs ys ^ 2 = 0 := le_antisymm h1 (sq_nonneg _)
        exact pow_eq_zero_iff (by norm_num) |>.mp h2
      rw [hd0, ← hq0]
      nlinarith [mul_nonneg hp (sq_nonneg b)]
    · nlinarith [sq_nonneg (a * dotl ys ys - b * dotl xs ys),
        mul_nonneg (sq_nonneg b) hcs, mul_nonneg hq hcs, hqpos]

/-- Cosine similarity of entrywise-nonnegative vectors lies in `[0, 1]`. -/
theorem cosineSim_mem_unit {x y : List ℝ} (hx : NonnegVec x) (hy : NonnegVec y) :
    0 ≤ cosineSim x y ∧ cosineSim x y ≤ 1 := by
  have hd : 0 ≤ dotl x y := dotl_nonneg hx hy
  have hxx := dotl_self_nonneg x
  have hyy := dotl_self_nonneg y
  have hden : 0 ≤ Real.sqrt (dotl x x) * Real.sqrt (dotl y y) :=
    mul_nonneg (Real.sqrt_nonneg _) (Real.sqrt_nonneg _)
  constructor
  · exact div_nonneg hd hden
  · rcases eq_or_lt_of_le hden with h0 | hpos
    · rw [cosineSim, ← h0, div_zero]
      exact zero_le_one
    · rw [cosineSim, div_le_one hpos]
      have hle : dotl x y ≤ Real.sqrt (dotl x x * dotl y y) :=
        (Real.le_sqrt hd (mul_nonneg hxx hyy)).mpr (dotl_sq_le x y)
      rwa [Real.sqrt_mul hxx] at hle

/-- With pairwise-distinct agent names, the first index whose name matches
`nameAt agents i` is `i` itself. -/
theorem findIdx_nameAt : ∀ (agents : List Agent), (agents.map Agent.name).Nodup →
    ∀ i, i < agents.length →
      agents.findIdx (fun a => a.name = nameAt agents i) = i
  | [], _, i, hi => by simp at hi
  | ag :: rest, hnd, 0, _ => by
    rw [List.findIdx_cons]
    simp [nameAt]
  | ag :: rest, hnd, i + 1, hi => by
    have hi2 : i < rest.length := by simpa using hi
    have hsame : nameAt (ag :: rest) (i + 1) = nameAt rest i := by
      simp [nameAt]
    have hnd2 : (∀ x ∈ rest, ¬ x.name = ag.name) ∧ (rest.map Agent.name).Nodup := by
      simpa using hnd
    have hmem : nameAt rest i ∈ rest.map Agent.name := by
      rw [nameAt, List.getD_eq_getElem rest defaultAgent hi2]
      exact List.mem_map.mpr ⟨rest[i], List.getElem_mem hi2, rfl⟩
    have hne : ag.name ≠ nameAt rest i := by
      intro h
      obtain ⟨x, hx, hxeq⟩ := List.mem_map.mp hmem
      exact hnd2.1 x hx (by rw [hxeq, ← h])
    have hfalse : (decide (ag.name = nameAt rest i)) = false := by
      simpa using hne
    rw [hsame, List.findIdx_cons, hfalse]
    simp only [cond_false]
    rw [findIdx_nameAt rest hnd2.2 i hi2]

/-- With pairwise-distinct agent names, `scoreOfName` at the name of agent
`i` is the `i`-th score. -/
theorem scoreOfName_nameAt (agents : List Agent) (scores : List α)
    (hnd : (agents.map Agent.name).Nodup) {i : Nat} (hi : i < agents.length) :
    scoreOfName agents scores (nameAt agents i) = scores.getD i 0 := by
  rw [scoreOfName, findIdx_nameAt agents hnd i hi]

/-- With pairwise-distinct agent names, `nameAt` is injective on in-range
indices. -/
theorem nameAt_inj (agents : List Agent) (hnd : (agents.map Agent.name).Nodup)
    {i j : Nat} (hi : i < agents.length) (hj : j < agents.length)
    (h : nameAt agents i = nameAt agents j) : i = j := by
  have hmi : i < (agents.map Agent.name).length := by simpa using hi
  have hmj : j < (agents.map Agent.name).length := by simpa using hj
  have h2 : (agents.map Agent.name)[i] = (agents.map Agent.name)[j] := by
    rw [List.getElem_map, List.getElem_map]
    rw [nameAt, nameAt, List.getD_eq_getElem agents defaultAgent hi,
      List.getD_eq_getElem agents defaultAgent hj] at h
    exact h
  exact (hnd.getElem_inj_iff.mp h2)

/-- Every index into the default singleton registry names the default agent,
in or out of range. -/
theorem nameAt_defaultAgent (idx : Nat) : nameAt [defaultAgent] idx = "General Assistant" := by
  cases idx <;> rfl

/-- The history window is never longer than the configured bound. -/
theorem historyWindow_length_le (maxHistory : Nat) (history : List Message) :
    (historyWindow maxHistory history).length ≤ maxHistory := by
  rw [historyWindow]
  split
  · simp
  · split
    · rw [takeLast, List.length_drop]
      omega
    · rw [List.length_dropLast]
      omega

/-! ### Claim theorems -/

/-- C1: with a nonempty registry and a fitted index, `should_switch_agent`
returns the triple `(should_switch, best_agent, confidence)` in which
`best_agent` is the agent whose similarity score is maximal over the whole
row (`np.argmax`), `confidence` is the best score minus the current agent's
score, and `should_switch` holds exactly when the best agent differs from
the current one and the confidence strictly exceeds the threshold. -/
theorem C1_should_switch_spec (agents : List Agent) (scores : List ℚ)
    (current : String) (threshold : ℚ)
    (hA : agents ≠ []) (hlen : scores.length = agents.length) :
    (should_switch_agent agents true (.ok scores) current threshold).2.1
        = nameAt agents (argmax scores) ∧
    (∀ j, j < scores.length → scores.getD j 0 ≤ scores.getD (argmax scores) 0) ∧
    (should_switch_agent agents true (.ok scores) current threshold).2.2
        = scores.getD (argmax scores) 0 - currentScoreOf agents scores current ∧
    ((should_switch_agent agents true (.ok scores) current threshold).1 = true ↔
      (nameAt agents (argmax scores) ≠ current ∧
        threshold < scores.getD (argmax scores) 0 - currentScoreOf agents scores current)) := by
  have hne : scores ≠ [] := by
    intro h
    rw [h] at hlen
    exact hA (List.length_eq_zero.mp hlen.symm)
  have hguard : (agents.isEmpty || !true) = false := by
    simp [List.isEmpty_eq_false.mpr hA]
  simp only [should_switch_agent, hguard, Bool.false_eq_true, if_false]
  refine ⟨trivial, getD_argmax_max scores hne, trivial, ?_⟩
  simp [Bool.and_eq_true, decide_eq_true_eq]

/-- C1 witness: the two-agent Scenario B registry with the poem query's score
row; at threshold 0.15 the theorem applies and describes the switch
recommendation towards the Creative Writer. -/
theorem C1_witness :
    (([Agent.mk "Code Expert" "code debugging Python" "cp",
       Agent.mk "Creative Writer" "poems stories" "wp"] : List Agent) ≠ [] ∧
      ([(0 : ℚ), 2/5]).length =
        ([Agent.mk "Code Expert" "code debugging Python" "cp",
          Agent.mk "Creative Writer" "poems stories" "wp"] : List Agent).length) ∧
    ((should_switch_agent
        [Agent.mk "Code Expert" "code debugging Python" "cp",
         Agent.mk "Creative Writer" "poems stories" "wp"] true
        (.ok [(0 : ℚ), 2/5]) "Code Expert" (3/20)).2.1
          = nameAt
            [Agent.mk "Code Expert" "code debugging Python" "cp",
             Agent.mk "Creative Writer" "poems stories" "wp"] (argmax [(0 : ℚ), 2/5]) ∧
      (∀ j, j < ([(0 : ℚ), 2/5]).length →
        ([(0 : ℚ), 2/5]).getD j 0 ≤ ([(0 : ℚ), 2/5]).getD (argmax [(0 : ℚ), 2/5]) 0) ∧
      (should_switch_agent
        [Agent.mk "Code Expert" "code debugging Python" "cp",
         Agent.mk "Creative Writer" "poems stories" "wp"] true
        (.ok [(0 : ℚ), 2/5]) "Code Expert" (3/20)).2.2
          = ([(0 : ℚ), 2/5]).getD (argmax [(0 : ℚ), 2/5]) 0 -
            currentScoreOf
              [Agent.mk "Code Expert" "code debugging Python" "cp",
               Agent.mk "Creative Writer" "poems stories" "wp"] [(0 : ℚ), 2/5] "Code Expert" ∧
      ((should_switch_agent
          [Agent.mk "Code Expert" "code debugging Python" "cp",
           Agent.mk "Creative Writer" "poems stories" "wp"] true
          (.ok [(0 : ℚ), 2/5]) "Code Expert" (3/20)).1 = true ↔
        (nameAt
            [Agent.mk "Code Expert" "code debugging Python" "cp",
             Agent.mk "Creative Writer" "poems stories" "wp"] (argmax [(0 : ℚ), 2/5])
            ≠ "Code Expert" ∧
          (3/20 : ℚ) < ([(0 : ℚ), 2/5]).getD (argmax [(0 : ℚ), 2/5]) 0 -
            currentScoreOf
              [Agent.mk "Code Expert" "code debugging Python" "cp",
               Agent.mk "Creative Writer" "poems stories" "wp"] [(0 : ℚ), 2/5] "Code Expert"))) :=
  ⟨⟨by decide, rfl⟩,
    C1_should_switch_spec
      [Agent.mk "Code Expert" "code debugging Python" "cp",
       Agent.mk "Creative Writer" "poems stories" "wp"]
      [(0 : ℚ), 2/5] "Code Expert" (3/20) (by decide) rfl⟩

/-- C2 counterexample: on an empty agent store the router does not raise; it
substitutes the default agent and returns it as a normal result, so the
claimed `NoAgentsAvailableError` never happens. -/
theorem C2_counterexample :
    routeQuery (α := ℚ) [] true (.ok [1]) none = .ok "General Assistant" ∧
    routeQuery (α := ℚ) [] true (.ok [1]) none ≠ .error RouterError.noAgentsAvailable := by
  constructor
  · rfl
  · intro h
    have h2 : (Except.ok "General Assistant" : Except RouterError String)
        = Except.error RouterError.noAgentsAvailable := h
    exact Except.noConfusion h2

/-- C2 amended: routing with an empty agent store substitutes the default
`General Assistant` registry entry (`update_agent_knowledge`) and returns
its name as an ordinary result — whether the index is fitted or not and
whether scoring succeeds or raises — rather than raising any error. -/
theorem C2_amended (fitOk : Bool) (scores : List ℚ) (exclude : Option String)
    (hlen : scores.length = 1) :
    routeQuery [] fitOk (.ok scores) exclude = .ok "General Assistant" ∧
    routeQuery (α := ℚ) [] fitOk (.error ()) exclude = .ok "General Assistant" := by
  obtain ⟨s, rfl⟩ := List.length_eq_one.mp hlen
  cases fitOk with
  | false => exact ⟨rfl, rfl⟩
  | true =>
    refine ⟨?_, rfl⟩
    have hsorted : sortedIndicesDesc [s] = [0] := by
      simp [sortedIndicesDesc, List.insertionSort, List.orderedInsert]
    show Except.ok (get_best_agent_for_query [defaultAgent] true (.ok [s]) exclude)
      = Except.ok "General Assistant"
    congr 1
    simp only [get_best_agent_for_query, hsorted]
    cases hfind : List.find? (fun idx => notExcluded exclude (nameAt [defaultAgent] idx)) [0] with
    | none => simp [hfind, nameAt_defaultAgent]
    | some idx => simp [hfind, nameAt_defaultAgent]

/-- C2 witness: a concrete empty-store routing call, with a fitted index and
a singleton score row, returns the default agent normally. -/
theorem C2_witness :
    ([(1 : ℚ)]).length = 1 ∧
    (routeQuery [] true (.ok [(1 : ℚ)]) (some "General Assistant") = .ok "General Assistant" ∧
      routeQuery (α := ℚ) [] true (.error ()) (some "General Assistant")
        = .ok "General Assistant") :=
  ⟨rfl, C2_amended true [(1 : ℚ)] (some "General Assistant") rfl⟩

/-- C3 counterexample: with the index absent, `get_best_agent_for_query`
returns the fixed string "General Assistant" — not the registry's first
agent "Alpha" — and `should_switch_agent` returns the current agent "Beta",
also not the first agent. -/
theorem C3_counterexample :
    get_best_agent_for_query (α := ℚ) [Agent.mk "Alpha" "a" "b", Agent.mk "Beta" "c" "d"]
        false (.ok [0, 0]) none = "General Assistant" ∧
    "General Assistant" ≠ "Alpha" ∧
    should_switch_agent (α := ℚ) [Agent.mk "Alpha" "a" "b", Agent.mk "Beta" "c" "d"]
        false (.ok [0, 0]) "Beta" 1 = (false, "Beta", 0) ∧
    "Beta" ≠ "Alpha" := by
  exact ⟨rfl, by decide, rfl, by decide⟩

/-- C3 amended: when the relevance index is absent, `get_best_agent_for_query`
returns the fixed default name "General Assistant" (whatever the registry
holds) and `should_switch_agent` returns `(False, current_agent, 0.0)`;
when the index exists but scoring raises (e.g. a stale index), the former
returns the registry's first agent and the latter again returns
`(False, current_agent, 0.0)`.  No exception escapes in either case. -/
theorem C3_amended (agents : List Agent) (a : Agent) (rest : List Agent)
    (sr : Except Unit (List ℚ)) (current : String) (t : ℚ) (exclude : Option String) :
    get_best_agent_for_query agents false sr exclude = "General Assistant" ∧
    should_switch_agent agents false sr current t = (false, current, 0) ∧
    get_best_agent_for_query (α := ℚ) (a :: rest) true (.error ()) exclude = a.name ∧
    should_switch_agent (α := ℚ) (a :: rest) true (.error ()) current t
      = (false, current, 0) := by
  refine ⟨?_, ?_, rfl, rfl⟩
  · simp [get_best_agent_for_query]
  · simp [should_switch_agent]

/-- C4 counterexample: two agents tied at the same similarity.  Both
`get_best_agent_for_query` and `get_agent_recommendations` put the agent that
appears later in the registry ("B") ahead of the earlier one ("A"),
contradicting the claimed earliest-first tie-break. -/
theorem C4_counterexample :
    get_best_agent_for_query (α := ℚ) [Agent.mk "A" "a" "a", Agent.mk "B" "b" "b"]
        true (.ok [1, 1]) none = "B" ∧
    get_agent_recommendations (α := ℚ) [Agent.mk "A" "a" "a", Agent.mk "B" "b" "b"]
        true (.ok [1, 1]) 2 none = ["B", "A"] ∧
    "B" ≠ "A" :=
  ⟨by decide, by decide, by decide⟩

/-- C4 amended: the claimed earliest-first tie-break is false; in the regime
where NumPy's `argsort` is stable — score rows shorter than its ~16-element
insertion-sort cutoff, hence the hypothesis `scores.length < 16` — both
functions rank the tied agent that appears LATEST in the registry order
ahead of the earlier one, because reversing a stable ascending sort reverses
the relative order of equal scores.  The ranking consumed by
`get_best_agent_for_query` (without exclusion, the head of the ranking) and
by `get_agent_recommendations` (the ranking order itself) places tied index
`j` strictly before tied index `i < j`.  For 16 or more agents the unstable
quicksort leaves the tie order unspecified, so no direction is claimed
there. -/
theorem C4_amended (agents : List Agent) (scores : List ℚ) (i j : Nat)
    (hsmall : scores.length < 16)
    (hij : i < j) (hj : j < scores.length)
    (htie : scores.getD i 0 = scores.getD j 0)
    (hA : agents ≠ []) (hlen : scores.length = agents.length) :
    (sortedIndicesDesc scores).indexOf j < (sortedIndicesDesc scores).indexOf i ∧
    get_best_agent_for_query agents true (.ok scores) none
      = nameAt agents ((sortedIndicesDesc scores).headD 0) ∧
    get_agent_recommendations agents true (.ok scores) scores.length none
      = (sortedIndicesDesc scores).map (nameAt agents) := by
  refine ⟨sortedIndicesDesc_tie_later scores hij hj htie, ?_, ?_⟩
  · have hguard : (agents.isEmpty || !true) = false := by
      simp [List.isEmpty_eq_false.mpr hA]
    simp only [get_best_agent_for_query, hguard, Bool.false_eq_true, if_false]
    have hfind : (sortedIndicesDesc scores).find?
        (fun idx => notExcluded none (nameAt agents idx)) = (sortedIndicesDesc scores).head? :=
      find?_of_forall_true (fun x _ => rfl)
    rw [hfind]
    have hne : sortedIndicesDesc scores ≠ [] := by
      intro h
      have hl := sortedIndicesDesc_length scores
      rw [h] at hl
      simp at hl
      omega
    cases hs : sortedIndicesDesc scores with
    | nil => exact absurd hs hne
    | cons h0 t0 => simp [List.head?_cons, List.headD]
  · have hN : 1 ≤ scores.length := by omega
    rw [get_agent_recommendations_eq agents scores scores.length none hA hN]
    have hfilter : (sortedIndicesDesc scores).filter
        (fun idx => notExcluded none (nameAt agents idx)) = sortedIndicesDesc scores :=
      List.filter_eq_self.mpr (fun a _ => rfl)
    rw [hfilter, List.take_of_length_le (le_of_eq (sortedIndicesDesc_length scores))]

/-- C4 witness: the amended statement applied to the concrete tied registry
of the counterexample (two agents, well inside the stable-sort regime). -/
theorem C4_witness :
    (([(1 : ℚ), 1]).length < 16 ∧ (0 : Nat) < 1 ∧ 1 < ([(1 : ℚ), 1]).length ∧
      ([(1 : ℚ), 1]).getD 0 0 = ([(1 : ℚ), 1]).getD 1 0 ∧
      ([Agent.mk "A" "a" "a", Agent.mk "B" "b" "b"] : List Agent) ≠ [] ∧
      ([(1 : ℚ), 1]).length = ([Agent.mk "A" "a" "a", Agent.mk "B" "b" "b"] : List Agent).length) ∧
    ((sortedIndicesDesc [(1 : ℚ), 1]).indexOf 1 < (sortedIndicesDesc [(1 : ℚ), 1]).indexOf 0 ∧
      get_best_agent_for_query [Agent.mk "A" "a" "a", Agent.mk "B" "b" "b"] true
          (.ok [(1 : ℚ), 1]) none
        = nameAt [Agent.mk "A" "a" "a", Agent.mk "B" "b" "b"]
            ((sortedIndicesDesc [(1 : ℚ), 1]).headD 0) ∧
      get_agent_recommendations [Agent.mk "A" "a" "a", Agent.mk "B" "b" "b"] true
          (.ok [(1 : ℚ), 1]) ([(1 : ℚ), 1]).length none
        = (sortedIndicesDesc [(1 : ℚ), 1]).map
            (nameAt [Agent.mk "A" "a" "a", Agent.mk "B" "b" "b"])) :=
  ⟨⟨by decide, by decide, by decide, rfl, by decide, rfl⟩,
    C4_amended [Agent.mk "A" "a" "a", Agent.mk "B" "b" "b"] [(1 : ℚ), 1] 0 1
      (by decide) (by decide) (by decide) rfl (by decide) rfl⟩

/-- C5 counterexample: with `top_n = 0` the loop appends one recommendation
before checking the bound, so the result has one element, not at most zero. -/
theorem C5_counterexample :
    get_agent_recommendations (α := ℚ) [Agent.mk "A" "a" "a", Agent.mk "B" "b" "b"]
        true (.ok [2, 1]) 0 (some "B") = ["A"] ∧
    ¬ ((["A"] : List String).length ≤ 0) :=
  ⟨by decide, by decide⟩

/-- C5 amended: cosine similarities of entrywise-nonnegative TF-IDF vectors
all lie in `[0, 1]`, and for `top_n = N ≥ 1` (the failure of the original
claim at `N = 0` forces this restriction) and pairwise-distinct registry
names, `get_agent_recommendations` returns at most `N` distinct names, never
the excluded one, ordered by descending similarity. -/
theorem C5_amended (agents : List Agent) (qv : List ℝ) (vecs : List (List ℝ))
    (topN : Nat) (excluded : String)
    (hq : NonnegVec qv) (hv : ∀ v ∈ vecs, NonnegVec v)
    (hnd : (agents.map Agent.name).Nodup)
    (hlen : vecs.length = agents.length)
    (hA : agents ≠ []) (hN : 1 ≤ topN) :
    (∀ s ∈ vecs.map (cosineSim qv), 0 ≤ s ∧ s ≤ 1) ∧
    (get_agent_recommendations agents true (.ok (vecs.map (cosineSim qv))) topN
        (some excluded)).length ≤ topN ∧
    (get_agent_recommendations agents true (.ok (vecs.map (cosineSim qv))) topN
        (some excluded)).Nodup ∧
    excluded ∉ get_agent_recommendations agents true (.ok (vecs.map (cosineSim qv))) topN
        (some excluded) ∧
    (get_agent_recommendations agents true (.ok (vecs.map (cosineSim qv))) topN
        (some excluded)).Pairwise
      (fun n1 n2 => scoreOfName agents (vecs.map (cosineSim qv)) n2
        ≤ scoreOfName agents (vecs.map (cosineSim qv)) n1) := by
  set scores := vecs.map (cosineSim qv) with hscores
  have hslen : scores.length = agents.length := by
    rw [hscores, List.length_map]
    exact hlen
  have hrecs := get_agent_recommendations_eq agents scores topN (some excluded) hA hN
  have hsub : (((sortedIndicesDesc scores).filter
      (fun idx => notExcluded (some excluded) (nameAt agents idx))).take topN).Sublist
      (sortedIndicesDesc scores) :=
    (List.take_sublist _ _).trans (List.filter_sublist _)
  have hbound : ∀ x ∈ ((sortedIndicesDesc scores).filter
      (fun idx => notExcluded (some excluded) (nameAt agents idx))).take topN,
      x < agents.length := by
    intro x hx
    have := (sortedIndicesDesc_mem scores).mp (hsub.subset hx)
    omega
  refine ⟨?_, ?_, ?_, ?_, ?_⟩
  · intro s hs
    obtain ⟨v, hvmem, rfl⟩ := List.mem_map.mp hs
    exact cosineSim_mem_unit hq (hv v hvmem)
  · rw [hrecs, List.length_map]
    exact le_trans (le_of_eq (List.length_take _ _)) (min_le_left _ _)
  · rw [hrecs]
    refine List.Nodup.map_on ?_ (hsub.nodup (sortedIndicesDesc_nodup scores))
    intro x hx y hy hxy
    exact nameAt_inj agents hnd (hbound x hx) (hbound y hy) hxy
  · rw [hrecs]
    intro hmem
    obtain ⟨idx, hidx, hname⟩ := List.mem_map.mp hmem
    have hidx2 := (List.take_sublist _ _).subset hidx
    have hpred := (List.mem_filter.mp hidx2).2
    rw [hname] at hpred
    simp [notExcluded] at hpred
  · rw [hrecs, List.pairwise_map]
    refine (List.Pairwise.sublist hsub (sortedIndicesDesc_pairwise scores)).imp_of_mem ?_
    intro a b ha hb hk
    rw [scoreOfName_nameAt agents scores hnd (hbound b hb),
      scoreOfName_nameAt agents scores hnd (hbound a ha)]
    rcases hk with hlt | ⟨heq, _⟩
    · exact le_of_lt hlt
    · exact le_of_eq heq

/-- C5 witness: the amended statement applied to a concrete two-agent
registry with unit TF-IDF vectors, `top_n = 1`, excluding agent "B". -/
theorem C5_witness :
    (NonnegVec [(1 : ℝ), 0] ∧ (∀ v ∈ [[(1 : ℝ), 0], [(0 : ℝ), 1]], NonnegVec v) ∧
      (([Agent.mk "A" "a" "a", Agent.mk "B" "b" "b"] : List Agent).map Agent.name).Nodup ∧
      ([[(1 : ℝ), 0], [(0 : ℝ), 1]] : List (List ℝ)).length
        = ([Agent.mk "A" "a" "a", Agent.mk "B" "b" "b"] : List Agent).length ∧
      ([Agent.mk "A" "a" "a", Agent.mk "B" "b" "b"] : List Agent) ≠ [] ∧ 1 ≤ 1) ∧
    ((∀ s ∈ ([[(1 : ℝ), 0], [(0 : ℝ), 1]] : List (List ℝ)).map (cosineSim [(1 : ℝ), 0]),
        0 ≤ s ∧ s ≤ 1) ∧
      (get_agent_recommendations [Agent.mk "A" "a" "a", Agent.mk "B" "b" "b"] true
          (.ok (([[(1 : ℝ), 0], [(0 : ℝ), 1]] : List (List ℝ)).map (cosineSim [(1 : ℝ), 0]))) 1
          (some "B")).length ≤ 1 ∧
      (get_agent_recommendations [Agent.mk "A" "a" "a", Agent.mk "B" "b" "b"] true
          (.ok (([[(1 : ℝ), 0], [(0 : ℝ), 1]] : List (List ℝ)).map (cosineSim [(1 : ℝ), 0]))) 1
          (some "B")).Nodup ∧
      "B" ∉ get_agent_recommendations [Agent.mk "A" "a" "a", Agent.mk "B" "b" "b"] true
          (.ok (([[(1 : ℝ), 0], [(0 : ℝ), 1]] : List (List ℝ)).map (cosineSim [(1 : ℝ), 0]))) 1
          (some "B") ∧
      (get_agent_recommendations [Agent.mk "A" "a" "a", Agent.mk "B" "b" "b"] true
          (.ok (([[(1 : ℝ), 0], [(0 : ℝ), 1]] : List (List ℝ)).map (cosineSim [(1 : ℝ), 0]))) 1
          (some "B")).Pairwise
        (fun n1 n2 =>
          scoreOfName [Agent.mk "A" "a" "a", Agent.mk "B" "b" "b"]
              (([[(1 : ℝ), 0], [(0 : ℝ), 1]] : List (List ℝ)).map (cosineSim [(1 : ℝ), 0])) n2
            ≤ scoreOfName [Agent.mk "A" "a" "a", Agent.mk "B" "b" "b"]
              (([[(1 : ℝ), 0], [(0 : ℝ), 1]] : List (List ℝ)).map (cosineSim [(1 : ℝ), 0])) n1)) := by
  have hq : NonnegVec [(1 : ℝ), 0] := by
    intro x hx
    rcases List.mem_cons.mp hx with rfl | hx2
    · exact zero_le_one
    · rcases List.mem_cons.mp hx2 with rfl | hx3
      · exact le_refl 0
      · exact absurd hx3 (List.not_mem_nil x)
  have hq2 : NonnegVec [(0 : ℝ), 1] := by
    intro x hx
    rcases List.mem_cons.mp hx with rfl | hx2
    · exact le_refl 0
    · rcases List.mem_cons.mp hx2 with rfl | hx3
      · exact zero_le_one
      · exact absurd hx3 (List.not_mem_nil x)
  have hv : ∀ v ∈ [[(1 : ℝ), 0], [(0 : ℝ), 1]], NonnegVec v := by
    intro v hvm
    rcases List.mem_cons.mp hvm with rfl | hv2
    · exact hq
    · rcases List.mem_cons.mp hv2 with rfl | hv3
      · exact hq2
      · exact absurd hv3 (List.not_mem_nil v)
  exact ⟨⟨hq, hv, by decide, rfl, by decide, le_refl 1⟩,
    C5_amended [Agent.mk "A" "a" "a", Agent.mk "B" "b" "b"] [(1 : ℝ), 0]
      [[(1 : ℝ), 0], [(0 : ℝ), 1]] 1 "B" hq hv (by decide) rfl (by decide) (le_refl 1)⟩

/-- C6: both prompt builders return a message list of length at most
`max_history + 2`, starting with the system message and ending with the new
user message; an over-long history is truncated, never an error. -/
theorem C6_prompt_length_bound (maxHistory : Nat) (sp current ui pi : String)
    (history : List Message) :
    (buildSimpleMessages maxHistory sp history ui).length ≤ maxHistory + 2 ∧
    (buildSimpleMessages maxHistory sp history ui).head?
      = some { role := "system", content := sp } ∧
    (buildSimpleMessages maxHistory sp history ui).getLast?
      = some { role := "user", content := ui } ∧
    (buildPrimaryMessages maxHistory sp current history pi).length ≤ maxHistory + 2 ∧
    (buildPrimaryMessages maxHistory sp current history pi).head?
      = some { role := "system", content := sp } ∧
    (buildPrimaryMessages maxHistory sp current history pi).getLast?
      = some { role := "user", content := pi } := by
  have hw := historyWindow_length_le maxHistory history
  refine ⟨?_, rfl, ?_, ?_, rfl, ?_⟩
  · simp only [buildSimpleMessages, List.length_cons, List.length_append, List.length_map,
      List.length_singleton, List.length_nil]
    omega
  · rw [buildSimpleMessages, ← List.cons_append, List.getLast?_concat]
  · simp only [buildPrimaryMessages, List.length_cons, List.length_append, List.length_map,
      List.length_singleton, List.length_nil]
    omega
  · rw [buildPrimaryMessages, ← List.cons_append, List.getLast?_concat]

/-- C7: every prior assistant message in the included history window whose
recorded producing agent is a nonempty name different from the responding
agent appears in the assembled prompt with its content rewritten to carry
the producing agent's name, in both prompt builders. -/
theorem C7_crossagent_messages_tagged (maxHistory : Nat) (current sp pi ui : String)
    (history : List Message) (m : Message) (a : String)
    (hm : m ∈ historyWindow maxHistory history) (hrole : m.role = "assistant")
    (hag : m.agent = some a) (ha0 : a ≠ "") (hac : a ≠ current) :
    ({ role := "assistant",
       content := "[Previous response from " ++ a ++ "]: " ++ m.content } : ChatMsg)
      ∈ buildPrimaryMessages maxHistory sp current history pi ∧
    ({ role := "assistant", content := "[" ++ a ++ "]: " ++ m.content } : ChatMsg)
      ∈ buildSimpleMessages maxHistory sp history ui := by
  constructor
  · have htag : primaryTag current m
        = { role := "assistant",
            content := "[Previous response from " ++ a ++ "]: " ++ m.content } := by
      simp [primaryTag, hag, hrole, ha0, hac]
    refine List.mem_cons_of_mem _ (List.mem_append_left _ ?_)
    rw [← htag]
    exact List.mem_map_of_mem _ hm
  · have htag : simpleTag m
        = { role := "assistant", content := "[" ++ a ++ "]: " ++ m.content } := by
      simp [simpleTag, hag, hrole]
    refine List.mem_cons_of_mem _ (List.mem_append_left _ ?_)
    rw [← htag]
    exact List.mem_map_of_mem _ hm

/-- C7 witness: a two-message history whose first entry is an assistant turn
produced by "Writer", assembled for the responding agent "Coder". -/
theorem C7_witness :
    ((Message.mk "assistant" "hello" (some "Writer"))
        ∈ historyWindow 8 [Message.mk "assistant" "hello" (some "Writer"),
            Message.mk "user" "hi" none] ∧
      (Message.mk "assistant" "hello" (some "Writer")).role = "assistant" ∧
      (Message.mk "assistant" "hello" (some "Writer")).agent = some "Writer" ∧
      ("Writer" : String) ≠ "" ∧ ("Writer" : String) ≠ "Coder") ∧
    (({ role := "assistant",
        content := "[Previous response from " ++ "Writer" ++ "]: "
          ++ (Message.mk "assistant" "hello" (some "Writer")).content } : ChatMsg)
        ∈ buildPrimaryMessages 8 "sp" "Coder"
            [Message.mk "assistant" "hello" (some "Writer"), Message.mk "user" "hi" none] "pi" ∧
      ({ role := "assistant",
         content := "[" ++ "Writer" ++ "]: "
           ++ (Message.mk "assistant" "hello" (some "Writer")).content } : ChatMsg)
        ∈ buildSimpleMessages 8 "sp"
            [Message.mk "assistant" "hello" (some "Writer"), Message.mk "user" "hi" none] "ui") :=
  ⟨⟨by decide, rfl, rfl, by decide, by decide⟩,
    C7_crossagent_messages_tagged 8 "Coder" "sp" "pi" "ui"
      [Message.mk "assistant" "hello" (some "Writer"), Message.mk "user" "hi" none]
      (Message.mk "assistant" "hello" (some "Writer")) "Writer"
      (by decide) rfl rfl (by decide) (by decide)⟩

/-- C8: `save_chat_history` re-raises the first database failure to its
caller (one attempt, no retry and no silent give-up), even though the
repository's `execute_with_retry` helper — which every sibling database
function uses, and which the dead code below `save_chat_history`'s
`finally` block still references — performs up to five attempts with
exponential backoff delays 1, 2, 4, 8 before re-raising. -/
theorem C8_save_failure_not_retried :
    save_chat_history true true (.error "db down") = .error "db down" ∧
    execute_with_retry (fun _ => .error "db down") = (.error "db down", [1, 2, 4, 8]) ∧
    execute_with_retry (fun i => if i = 0 then .error "x" else .ok true) = (.ok true, [1]) :=
  ⟨rfl, rfl, rfl⟩

/-- C9: `should_switch_agent` is monotone in the threshold — if it recommends
switching at the larger threshold, it also does at any smaller one; raising
the threshold can only turn the decision off. -/
theorem C9_threshold_monotone (agents : List Agent) (hasIndex : Bool)
    (sr : Except Unit (List ℚ)) (current : String) (t1 t2 : ℚ) (hle : t1 ≤ t2)
    (h2 : (should_switch_agent agents hasIndex sr current t2).1 = true) :
    (should_switch_agent agents hasIndex sr current t1).1 = true := by
  by_cases hg : (agents.isEmpty || !hasIndex) = true
  · simp [should_switch_agent, hg] at h2
  · have hg2 : (agents.isEmpty || !hasIndex) = false := by simpa using hg
    cases sr with
    | error e => simp [should_switch_agent, hg2] at h2
    | ok scores =>
      simp only [should_switch_agent, hg2, Bool.false_eq_true, if_false] at h2 ⊢
      simp only [Bool.and_eq_true, decide_eq_true_eq] at h2 ⊢
      exact ⟨h2.1, lt_of_le_of_lt hle h2.2⟩

/-- C9 witness: a registry where the decision is on at threshold 0.15, hence
also on at the smaller threshold 0.10. -/
theorem C9_witness :
    ((1 : ℚ)/10 ≤ 3/20 ∧
      (should_switch_agent [Agent.mk "Code Expert" "c" "cp", Agent.mk "Creative Writer" "w" "wp"]
        true (.ok [(0 : ℚ), 2/5]) "Code Expert" (3/20)).1 = true) ∧
    (should_switch_agent [Agent.mk "Code Expert" "c" "cp", Agent.mk "Creative Writer" "w" "wp"]
      true (.ok [(0 : ℚ), 2/5]) "Code Expert" (1/10)).1 = true := by
  have h1 : (1 : ℚ)/10 ≤ 3/20 := by with_unfolding_all decide
  have h2 : (should_switch_agent
      [Agent.mk "Code Expert" "c" "cp", Agent.mk "Creative Writer" "w" "wp"]
      true (.ok [(0 : ℚ), 2/5]) "Code Expert" (3/20)).1 = true := by
    with_unfolding_all decide
  exact ⟨⟨h1, h2⟩,
    C9_threshold_monotone
      [Agent.mk "Code Expert" "c" "cp", Agent.mk "Creative Writer" "w" "wp"]
      true (.ok [(0 : ℚ), 2/5]) "Code Expert" (1/10) (3/20) h1 h2⟩

/-- C10: exclusion is best-effort — when every registry name equals the
excluded name, `get_best_agent_for_query` does not fail or return nothing:
the exclusion loop finds no candidate and the function falls back to the
name of the `np.argmax` agent, whose score dominates the whole row. -/
theorem C10_exclusion_best_effort (agents : List Agent) (scores : List ℚ) (e : String)
    (hA : agents ≠ []) (hlen : scores.length = agents.length)
    (hall : ∀ ag ∈ agents, ag.name = e) :
    get_best_agent_for_query agents true (.ok scores) (some e)
      = nameAt agents (argmax scores) ∧
    (∀ j, j < scores.length → scores.getD j 0 ≤ scores.getD (argmax scores) 0) := by
  have hne : scores ≠ [] := by
    intro h
    apply hA
    apply List.length_eq_zero.mp
    rw [← hlen, h]
    rfl
  have hguard : (agents.isEmpty || !true) = false := by
    simp [List.isEmpty_eq_false.mpr hA]
  refine ⟨?_, getD_argmax_max scores hne⟩
  simp only [get_best_agent_for_query, hguard, Bool.false_eq_true, if_false]
  have hfind : (sortedIndicesDesc scores).find?
      (fun idx => notExcluded (some e) (nameAt agents idx)) = none := by
    rw [List.find?_eq_none]
    intro idx hidx
    have hi : idx < agents.length := by
      have := (sortedIndicesDesc_mem scores).mp hidx
      omega
    have hname : nameAt agents idx = e := by
      rw [nameAt, List.getD_eq_getElem agents defaultAgent hi]
      exact hall _ (List.getElem_mem hi)
    simp [notExcluded, hname]
  rw [hfind]

/-- C10 witness: a single-agent registry whose only name is also the
excluded name still yields that agent's name. -/
theorem C10_witness :
    (([Agent.mk "A" "d" "p"] : List Agent) ≠ [] ∧
      ([(1 : ℚ)]).length = ([Agent.mk "A" "d" "p"] : List Agent).length ∧
      (∀ ag ∈ ([Agent.mk "A" "d" "p"] : List Agent), ag.name = "A")) ∧
    (get_best_agent_for_query [Agent.mk "A" "d" "p"] true (.ok [(1 : ℚ)]) (some "A")
        = nameAt [Agent.mk "A" "d" "p"] (argmax [(1 : ℚ)]) ∧
      (∀ j, j < ([(1 : ℚ)]).length →
        ([(1 : ℚ)]).getD j 0 ≤ ([(1 : ℚ)]).getD (argmax [(1 : ℚ)]) 0)) :=
  ⟨⟨by decide, rfl, by decide⟩,
    C10_exclusion_best_effort [Agent.mk "A" "d" "p"] [(1 : ℚ)] "A"
      (by decide) rfl (by decide)⟩

end LSE
